import Mathlib

/-
Verification development for the AutoBiz-AI WASM core (Rust sources):
  - src/core/wasm/modules/text-processing/rust/src/lib.rs  (TextProcessor)
  - src/core/wasm/modules/ml-inference/rust/src/lib.rs     (MLInference)
  - wasm/document-processor/src/lib.rs                     (DocumentProcessor)

The Rust code is shallowly embedded:
  - the flat WASM memory region is a `List Nat` of byte values;
  - `usize`/`i32`/`u32` arithmetic uses `Nat` with explicit wrapping
    (`% 4294967296`) where the 32-bit wasm target can wrap;
  - fallible operations (out-of-bounds scans, slice panics) return `Option`;
  - the chunker's unbounded `while` loop is run on explicit fuel, so a run
    that never terminates is the statement that every fuel value yields
    `none`.
-/

namespace Mem

/-- Alignment helper from both Rust allocators: `(size + 7) & !7`.
Clearing the low three bits of `size + 7` is exactly rounding `size` up to
the next multiple of 8, which is what this arithmetic form computes. -/
def align8 (size : Nat) : Nat := (size + 7) / 8 * 8

theorem align8_mod (size : Nat) : align8 size % 8 = 0 := by
  simp [align8, Nat.mul_mod_left]

theorem le_align8 (size : Nat) : size ≤ align8 size := by
  have h := Nat.div_add_mod (size + 7) 8
  have h2 : (size + 7) % 8 < 8 := Nat.mod_lt _ (by norm_num)
  simp only [align8]
  omega

/-- Reads one byte of the flat memory; all reads proved about below are
in bounds, the default only totalizes the function. -/
def byteAt (m : List Nat) (i : Nat) : Nat := m.getD i 0

/-- Overwrites the bytes `[p, p + bs.length)` of `m` with `bs`, the
`copy_from_slice` / raw-slice-store pattern of the Rust sources. -/
def writeBytes (m : List Nat) (p : Nat) (bs : List Nat) : List Nat :=
  m.take p ++ bs ++ m.drop (p + bs.length)

/-- Little-endian bytes of a 32-bit store, as performed by the raw
`*mut i32` writes in the sources (wasm32 is little-endian). -/
def le32 (v : Nat) : List Nat :=
  [v % 256, v / 256 % 256, v / 65536 % 256, v / 16777216 % 256]

def writeI32 (m : List Nat) (p : Nat) (v : Nat) : List Nat := writeBytes m p (le32 v)

/-- Reads back a little-endian 32-bit value (the `*const i32` loads); the
value is the 32-bit two's-complement bit pattern read as a `Nat`. -/
def readI32 (m : List Nat) (p : Nat) : Nat :=
  byteAt m p + 256 * byteAt m (p + 1) + 65536 * byteAt m (p + 2) +
    16777216 * byteAt m (p + 3)

/-- Little-endian bytes of a 64-bit store (the `*mut u64` writes). -/
def le64 (v : Nat) : List Nat :=
  [v % 256, v / 256 % 256, v / 65536 % 256, v / 16777216 % 256,
   v / 4294967296 % 256, v / 1099511627776 % 256,
   v / 281474976710656 % 256, v / 72057594037927936 % 256]

def writeU64 (m : List Nat) (p : Nat) (v : Nat) : List Nat := writeBytes m p (le64 v)

def readU64 (m : List Nat) (p : Nat) : Nat :=
  byteAt m p + 256 * byteAt m (p + 1) + 65536 * byteAt m (p + 2) +
    16777216 * byteAt m (p + 3) + 4294967296 * byteAt m (p + 4) +
    1099511627776 * byteAt m (p + 5) + 281474976710656 * byteAt m (p + 6) +
    72057594037927936 * byteAt m (p + 7)

theorem length_writeBytes {m bs : List Nat} {p : Nat}
    (h : p + bs.length ≤ m.length) : (writeBytes m p bs).length = m.length := by
  simp only [writeBytes, List.length_append, List.length_take, List.length_drop]
  omega

theorem byteAt_writeBytes {m bs : List Nat} {p : Nat}
    (h : p + bs.length ≤ m.length) (i : Nat) :
    byteAt (writeBytes m p bs) i =
      if i < p then byteAt m i
      else if i < p + bs.length then bs.getD (i - p) 0
      else byteAt m i := by
  have hp : p ≤ m.length := by omega
  simp only [byteAt, writeBytes, List.getD_eq_getElem?_getD, List.getElem?_append,
    List.length_append, List.length_take, List.getElem?_take, List.getElem?_drop]
  have hmin : p ⊓ m.length = p := by omega
  rw [hmin]
  split_ifs with h1 h2 h3 <;> try rfl
  all_goals try omega
  all_goals simp_all

theorem byteAt_writeBytes_lt {m bs : List Nat} {p i : Nat}
    (h : p + bs.length ≤ m.length) (hi : i < p) :
    byteAt (writeBytes m p bs) i = byteAt m i := by
  rw [byteAt_writeBytes h, if_pos hi]

theorem byteAt_writeBytes_in {m bs : List Nat} {p i : Nat}
    (h : p + bs.length ≤ m.length) (h1 : p ≤ i) (h2 : i < p + bs.length) :
    byteAt (writeBytes m p bs) i = bs.getD (i - p) 0 := by
  rw [byteAt_writeBytes h, if_neg (by omega), if_pos h2]

theorem byteAt_writeBytes_ge {m bs : List Nat} {p i : Nat}
    (h : p + bs.length ≤ m.length) (hi : p + bs.length ≤ i) :
    byteAt (writeBytes m p bs) i = byteAt m i := by
  rw [byteAt_writeBytes h, if_neg (by omega), if_neg (by omega)]

theorem length_writeI32 {m : List Nat} {p v : Nat} (h : p + 4 ≤ m.length) :
    (writeI32 m p v).length = m.length :=
  length_writeBytes (by simpa [le32] using h)

theorem readI32_writeI32_self {m : List Nat} {p v : Nat} (h : p + 4 ≤ m.length) :
    readI32 (writeI32 m p v) p = v % 4294967296 := by
  have h4 : p + (le32 v).length ≤ m.length := by simpa [le32] using h
  simp only [readI32, writeI32]
  rw [byteAt_writeBytes_in h4 (by omega) (by simp [le32]),
      byteAt_writeBytes_in h4 (by omega) (by simp [le32]),
      byteAt_writeBytes_in h4 (by omega) (by simp [le32]),
      byteAt_writeBytes_in h4 (by omega) (by simp [le32])]
  simp only [le32, Nat.add_sub_cancel_left, Nat.sub_self,
    List.getD_cons_zero, List.getD_cons_succ]
  omega

theorem readI32_writeI32_left {m : List Nat} {p q v : Nat}
    (h : p + 4 ≤ m.length) (hq : q + 4 ≤ p) :
    readI32 (writeI32 m p v) q = readI32 m q := by
  have h4 : p + (le32 v).length ≤ m.length := by simpa [le32] using h
  simp only [readI32, writeI32]
  rw [byteAt_writeBytes_lt h4 (by omega), byteAt_writeBytes_lt h4 (by omega),
      byteAt_writeBytes_lt h4 (by omega), byteAt_writeBytes_lt h4 (by omega)]

theorem readI32_writeI32_right {m : List Nat} {p q v : Nat}
    (h : p + 4 ≤ m.length) (hq : p + 4 ≤ q) :
    readI32 (writeI32 m p v) q = readI32 m q := by
  have h4 : p + (le32 v).length ≤ m.length := by simpa [le32] using h
  simp only [readI32, writeI32]
  rw [byteAt_writeBytes_ge h4 (by simp [le32]; omega),
      byteAt_writeBytes_ge h4 (by simp [le32]; omega),
      byteAt_writeBytes_ge h4 (by simp [le32]; omega),
      byteAt_writeBytes_ge h4 (by simp [le32]; omega)]

end Mem

namespace TextProcessor

open Mem

/-- State of a `TextProcessor`: the flat byte buffer plus the free-list
bookkeeping of `(ptr, size)` pairs. -/
structure TPState where
  mem : List Nat
  allocated : List (Nat × Nat)
deriving DecidableEq, Repr

/-- Fresh processor, `TextProcessor::new` (the 1 MB `Vec::with_capacity`
reserve affects only capacity, never length or contents). -/
def tp0 : TPState := ⟨[], []⟩

/-- Embeds `TextProcessor::allocate`: rounds the size up to a multiple of 8,
appends that many zero bytes, records the block, and returns the old length
as the offset. -/
def allocate (st : TPState) (size : Nat) : Nat × TPState :=
  let alignedSize := align8 size
  let ptr := st.mem.length
  (ptr, ⟨st.mem ++ List.replicate alignedSize 0, st.allocated ++ [(ptr, alignedSize)]⟩)

/-- Embeds `TextProcessor::deallocate`: removes the first `(p, s)` record
with `p == ptr` and `s >= size`; the bytes themselves are untouched. -/
def deallocate (st : TPState) (ptr size : Nat) : TPState :=
  match st.allocated.findIdx? (fun r => r.1 == ptr && size ≤ r.2) with
  | some i => ⟨st.mem, st.allocated.eraseIdx i⟩
  | none => st

/-- Embeds `TextProcessor::cleanup`: clears buffer and bookkeeping. -/
def cleanup (_ : TPState) : TPState := ⟨[], []⟩

/-- Embeds `TextProcessor::read_string`: scans from `ptr` for the first zero
byte and returns the bytes before it. A scan that runs past the end of the
buffer is the `self.memory[ptr + len]` index panic, returned as `none`.
(The source finishes with `String::from_utf8_lossy`, which is the identity
on the valid UTF-8 byte sequences produced by `write_string`, so strings
are represented here by their UTF-8 bytes.) -/
def read_string (mem : List Nat) (ptr : Nat) : Option (List Nat) :=
  let tl := mem.drop ptr
  let r := tl.takeWhile (fun b => b != 0)
  if r.length < tl.length then some r else none

/-- Embeds `TextProcessor::write_string`: allocates `bytes.length + 1`
bytes, copies the string bytes, and writes a single 0 terminator. -/
def write_string (st : TPState) (bytes : List Nat) : Nat × TPState :=
  let (ptr, st1) := allocate st (bytes.length + 1)
  let m2 := writeBytes st1.mem ptr bytes
  let m3 := writeBytes m2 (ptr + bytes.length) [0]
  (ptr, ⟨m3, st1.allocated⟩)

end TextProcessor

namespace TextProcessor

/-- Unicode White_Space test, by code point. This is the character set of
both the `regex` crate's default (Unicode) `\s` class and Rust's
`char::is_whitespace`, which the source uses via `str::trim`. -/
def isRustWs (c : Char) : Bool :=
  let v := c.toNat
  v == 9 || v == 10 || v == 11 || v == 12 || v == 13 || v == 32 ||
    v == 133 || v == 160 || v == 5760 ||
    (decide (8192 ≤ v) && decide (v ≤ 8202)) ||
    v == 8232 || v == 8233 || v == 8239 || v == 8287 || v == 12288

/-- Character class `[.!?]` of the `SENTENCE_BOUNDARY` regex. -/
def isSentencePunct (c : Char) : Bool :=
  c == '.' || c == '!' || c == '?'

/-- Number of UTF-8 bytes of a character sequence; regex match offsets are
byte offsets into the matched string. -/
def utf8Len (l : List Char) : Nat := (l.map Char.utf8Size).sum

/-- Embeds `SENTENCE_BOUNDARY.find_iter` for the pattern `[.!?]+\s+` over a
string given as its character list: the successive non-overlapping
leftmost matches, each reported as a `(startByte, endByte)` pair of UTF-8
byte offsets (the regex crate reports byte offsets). A match is a maximal
run of `.!?` characters followed by a maximal run of whitespace; a
punctuation run not followed by whitespace cannot match at any position
inside the run, so the scan resumes after it. The scan consumes at least
one character per step, so running it on fuel `l.length` (see `sbMatches`)
is exact; the fuel only makes the recursion structural. -/
def sbAux : Nat → List Char → Nat → List (Nat × Nat)
  | 0, _, _ => []
  | _ + 1, [], _ => []
  | fuel + 1, c :: cs, pos =>
    if isSentencePunct c then
      let ps := (c :: cs).takeWhile isSentencePunct
      let r1 := (c :: cs).dropWhile isSentencePunct
      let ws := r1.takeWhile isRustWs
      let r2 := r1.dropWhile isRustWs
      if ws.isEmpty then sbAux fuel r1 (pos + utf8Len ps)
      else (pos, pos + utf8Len ps + utf8Len ws) :: sbAux fuel r2 (pos + utf8Len ps + utf8Len ws)
    else sbAux fuel cs (pos + c.utf8Size)

/-- All sentence-boundary matches of a character list, with byte offsets
shifted by `pos`. -/
def sbMatches (l : List Char) (pos : Nat) : List (Nat × Nat) :=
  sbAux l.length l pos

/-- Embeds `str::trim` on a character list: strips leading and trailing
`char::is_whitespace` characters. -/
def trimChars (l : List Char) : List Char :=
  ((l.dropWhile isRustWs).reverse.dropWhile isRustWs).reverse

/-- Metadata of a chunk, `ChunkMetadata { language, confidence }`. The
`f64` confidence is carried by its IEEE-754 bit pattern, which is also
exactly what the codec stores (`confidence.to_bits()`). -/
structure ChunkMetadata where
  language : Option (List Char)
  confidenceBits : Nat
deriving DecidableEq, Repr

/-- Bit pattern of the `f64` value `1.0`, the fixed confidence the chunker
assigns. -/
def float64OneBits : Nat := 4607182418800017408

/-- A produced chunk, `TextChunk { text, start, end, metadata }`. `endPos`
renders the source's field `end`, a reserved word here. `text` is the list
of characters of the chunk string. -/
structure TextChunk where
  text : List Char
  start : Nat
  endPos : Nat
  metadata : ChunkMetadata
deriving DecidableEq, Repr

/-- The chunker configuration `ProcessingConfig` (sizes in grapheme
clusters). -/
structure ProcessingConfig where
  chunk_size : Nat
  overlap : Nat
  preserve_whitespace : Bool
  preserve_newlines : Bool
  trim_chunks : Bool
deriving DecidableEq, Repr

/-- Wrapping 32-bit subtraction `a - b` of wasm32 release builds, used by
the cursor update `start = chunk_end - config.overlap` (usize underflow
wraps on the 32-bit target with overflow checks off). -/
def wrapSub32 (a b : Nat) : Nat :=
  (a % 4294967296 + (4294967296 - b % 4294967296)) % 4294967296

/-- One iteration of the `while start < graphemes.len()` loop of
`chunk_text_impl`, applied to the already segmented grapheme-cluster list
(each cluster is its character list). Returns the chunk pushed (or `none`
for the `graphemes[start..chunk_end]` slice panic when the byte-offset
boundary exceeds the cluster count) together with the next cursor value. -/
def chunkStep (g : List (List Char)) (config : ProcessingConfig) (start : Nat) :
    Option TextChunk × Nat :=
  let e := min (start + config.chunk_size) g.length
  let window := (g.drop start).take (e - start)
  let chunk_end :=
    if e < g.length then
      match (sbMatches window.flatten 0).getLast? with
      | some m => start + m.2
      | none => e
    else e
  let next := wrapSub32 chunk_end config.overlap
  if start ≤ chunk_end ∧ chunk_end ≤ g.length then
    let raw := ((g.drop start).take (chunk_end - start)).flatten
    let chunkText := if config.trim_chunks then trimChars raw else raw
    (some ⟨chunkText, start, chunk_end, ⟨none, float64OneBits⟩⟩, next)
  else (none, next)

/-- The chunker loop on explicit fuel; `none` means the call did not return
a chunk list within the given number of iterations (and a run where every
fuel yields `none` therefore never returns). Chunks are accumulated in
reverse and restored on exit. -/
def chunkLoop (g : List (List Char)) (config : ProcessingConfig) :
    Nat → Nat → List TextChunk → Option (List TextChunk)
  | 0, _, _ => none
  | fuel + 1, start, acc =>
    if start < g.length then
      match chunkStep g config start with
      | (none, _) => none
      | (some c, next) => chunkLoop g config fuel next (c :: acc)
    else some acc.reverse

/-- Embeds `TextProcessor::chunk_text_impl` on the grapheme-cluster list of
the input text, with fuel for the source's unbounded loop. -/
def chunk_text_impl (g : List (List Char)) (config : ProcessingConfig)
    (fuel : Nat) : Option (List TextChunk) :=
  chunkLoop g config fuel 0 []

/-- Grapheme segmentation of a plain ASCII string without CR LF pairs: by
UAX #29 every such character is its own extended grapheme cluster. Used to
build concrete inputs for the chunker. -/
def asciiGraphemes (s : String) : List (List Char) :=
  s.toList.map (fun c => [c])

/-- UTF-8 bytes of a character list, `str::as_bytes` for the string it
spells. -/
def utf8Bytes (l : List Char) : List Nat :=
  l.flatMap (fun c => (String.utf8EncodeChar c).map (fun b => b.toNat))

end TextProcessor

namespace TextProcessor

/-- The unit test input of `test_chunk_text_basic`, as grapheme clusters
(plain ASCII, so by UAX 29 one character per cluster). -/
def gTest54 : List (List Char) :=
  asciiGraphemes ("This is a test sentence. And another one. And a third.")

/-- The unit test configuration: chunk_size 20, overlap 5, trim on. -/
def cfgTest : ProcessingConfig := ⟨20, 5, false, true, true⟩

/-- The iteration of the loop at cursor 20 on the test input snaps the
chunk end to 25 and then sets the cursor back to 25 - 5 = 20, so the loop
makes no progress from cursor 20 for any amount of fuel. -/
theorem chunkLoop_gTest54_stuck (fuel : Nat) :
    ∀ acc, chunkLoop gTest54 cfgTest fuel 20 acc = none := by
  induction fuel with
  | zero => intro acc; rfl
  | succ n ih =>
    intro acc
    have hstep : chunkStep gTest54 cfgTest 20 =
        (some ⟨['n', 'c', 'e', '.'], 20, 25, ⟨none, float64OneBits⟩⟩, 20) := by decide
    have hlt : 20 < gTest54.length := by decide
    simp only [chunkLoop, if_pos hlt, hstep]
    exact ih _

theorem chunkLoop_gTest54_from15 (fuel : Nat) (acc : List TextChunk) :
    chunkLoop gTest54 cfgTest fuel 15 acc = none := by
  cases fuel with
  | zero => rfl
  | succ n =>
    have hstep : chunkStep gTest54 cfgTest 15 =
        (some ⟨['s', 'e', 'n', 't', 'e', 'n', 'c', 'e', '.'], 15, 25,
          ⟨none, float64OneBits⟩⟩, 20) := by decide
    have hlt : 15 < gTest54.length := by decide
    simp only [chunkLoop, if_pos hlt, hstep]
    exact chunkLoop_gTest54_stuck n _

theorem chunkLoop_gTest54_from0 (fuel : Nat) (acc : List TextChunk) :
    chunkLoop gTest54 cfgTest fuel 0 acc = none := by
  cases fuel with
  | zero => rfl
  | succ n =>
    have hstep : chunkStep gTest54 cfgTest 0 =
        (some ⟨['T', 'h', 'i', 's', ' ', 'i', 's', ' ', 'a', ' ', 't', 'e',
                's', 't', ' ', 's', 'e', 'n', 't', 'e'], 0, 20,
          ⟨none, float64OneBits⟩⟩, 15) := by decide
    have hlt : 0 < gTest54.length := by decide
    simp only [chunkLoop, if_pos hlt, hstep]
    exact chunkLoop_gTest54_from15 n _

/-- C2: for the input text "This is a test sentence. And another one. And
a third." with chunk_size 20, overlap 5 and trimming on, the spec and the
repository's own unit test say the chunker produces exactly the three
chunks "This is a test sentence.", "And another one.", "And a third.". In
fact `chunk_text_impl` never returns on this input: after the chunks
"This is a test sente" (hard cutoff, no boundary in the first 20 clusters)
and "sentence." the cursor reaches 20, the window search snaps the chunk
end to 25, and the update `start = 25 - 5 = 20` repeats forever, so the
run yields no chunk list for any fuel. -/
theorem C2_chunk_text_impl_diverges_on_test_input :
    ∀ fuel : Nat, chunk_text_impl gTest54 cfgTest fuel = none := by
  intro fuel
  exact chunkLoop_gTest54_from0 fuel []

/-- Two-cluster input "ab" used to exhibit the missing
`overlap >= chunk_size` guard. -/
def gAB : List (List Char) := asciiGraphemes ("ab")

/-- Configuration with `overlap = chunk_size = 1`. -/
def cfgEqualOverlap : ProcessingConfig := ⟨1, 1, false, true, true⟩

theorem chunkLoop_gAB_stuck (fuel : Nat) :
    ∀ acc, chunkLoop gAB cfgEqualOverlap fuel 0 acc = none := by
  induction fuel with
  | zero => intro acc; rfl
  | succ n ih =>
    intro acc
    have hstep : chunkStep gAB cfgEqualOverlap 0 =
        (some ⟨['a'], 0, 1, ⟨none, float64OneBits⟩⟩, 0) := by decide
    have hlt : 0 < gAB.length := by decide
    simp only [chunkLoop, if_pos hlt, hstep]
    exact ih _

/-- C1: the claim says `chunk_text_impl` terminates for every input and
configuration, the cursor being guarded when `overlap >= chunk_size` and
clamped to 0 when the overlap exceeds the chunk end. The source has
neither guard: the cursor update is the bare
`start = chunk_end - config.overlap`. On the grapheme list of "ab" with
chunk_size 1 and overlap 1, every iteration emits the chunk `[0,1)` and
resets the cursor to 1 - 1 = 0, so the loop never terminates: the run
yields no result for any fuel. -/
theorem C1_chunk_text_impl_not_guarded :
    ∀ fuel : Nat, chunk_text_impl gAB cfgEqualOverlap fuel = none := by
  intro fuel
  exact chunkLoop_gAB_stuck fuel []

end TextProcessor

namespace TextProcessor

/-- Specification-side predicate: a grapheme cluster that is one of the
sentence punctuation marks `.` `!` `?`. -/
def isSentencePunctG (gr : List Char) : Bool :=
  gr == ['.'] || gr == ['!'] || gr == ['?']

/-- Specification-side predicate: a whitespace grapheme cluster (all of
its characters are whitespace, covering single spaces as well as the
CR LF cluster). -/
def isWsG (gr : List Char) : Bool :=
  !gr.isEmpty && gr.all isRustWs

/-- Specification-side matcher (written from the spec's words, for
comparison with the source behaviour): the sentence-boundary matches of a
window given as its grapheme-cluster sequence, with BOTH endpoints counted
in grapheme clusters, one per cluster — the spec's data model states that
chunk `start`/`end` are indices into the sequence of extended grapheme
clusters, not bytes. Same scan structure as `sbAux`, fuel is exact at the
cluster count. -/
def specSbAuxG : Nat → List (List Char) → Nat → List (Nat × Nat)
  | 0, _, _ => []
  | _ + 1, [], _ => []
  | fuel + 1, gr :: grs, pos =>
    if isSentencePunctG gr then
      let ps := (gr :: grs).takeWhile isSentencePunctG
      let r1 := (gr :: grs).dropWhile isSentencePunctG
      let ws := r1.takeWhile isWsG
      let r2 := r1.dropWhile isWsG
      if ws.isEmpty then specSbAuxG fuel r1 (pos + ps.length)
      else (pos, pos + ps.length + ws.length) :: specSbAuxG fuel r2 (pos + ps.length + ws.length)
    else specSbAuxG fuel grs (pos + 1)

/-- Specification-side chunk end (from the spec's words): the grapheme
position immediately after the last sentence-boundary match inside the
window `[start, e)`, if any. -/
def specSnapEnd (g : List (List Char)) (start e : Nat) : Option Nat :=
  (specSbAuxG (e - start) ((g.drop start).take (e - start)) 0).getLast?.map
    (fun m => start + m.2)

/-- Input for C3: grapheme clusters of the text "é. x y"; the cluster `é`
is two UTF-8 bytes. -/
def gAccent : List (List Char) := [['é'], ['.'], [' '], ['x'], [' '], ['y']]

/-- Configuration with chunk_size 4, so the candidate end 4 is strictly
inside the 6-cluster text and the window `[0, 4)` contains the
boundary match ". ". -/
def cfgAccent : ProcessingConfig := ⟨4, 0, false, true, false⟩

/-- C3: the claim says that when the window `[start, candidate_end)`
contains a sentence-boundary match, the emitted chunk end is the grapheme
position immediately after the last match, chunk positions being grapheme
indices, not bytes. The source instead adds `m.end()` — a BYTE offset into
the concatenated window string — to the grapheme index `start`. On the
window "é. x" of `gAccent` the last match ". " ends at byte offset 4 (the
cluster `é` occupies two bytes), so the code emits a chunk ending at
grapheme index 4 (text "é. x"), while the grapheme position after the
match — the spec-side value `specSnapEnd` — is 3 (text "é. "). The two end
positions differ, and on longer multi-byte inputs the byte offset can even
exceed the cluster count, making `graphemes[start..chunk_end]` panic. -/
theorem C3_chunk_end_is_byte_offset_not_grapheme_index :
    (chunkStep gAccent cfgAccent 0).1 =
      some ⟨['é', '.', ' ', 'x'], 0, 4, ⟨none, float64OneBits⟩⟩ ∧
    specSnapEnd gAccent 0 (min (0 + cfgAccent.chunk_size) gAccent.length) = some 3 ∧
    (4 : Nat) ≠ 3 := by
  refine ⟨by decide, by decide, by decide⟩

end TextProcessor

namespace TextProcessor

theorem write_string_ptr (st : TPState) (bs : List Nat) :
    (write_string st bs).1 = st.mem.length := by
  simp [write_string, allocate]

/-- Layout produced by `write_string`: the old buffer, the string bytes,
the 0 terminator, and the zero padding of the 8-byte-aligned block. -/
theorem write_string_mem (st : TPState) (bs : List Nat) :
    (write_string st bs).2.mem =
      st.mem ++ bs ++ 0 ::
        List.replicate (Mem.align8 (bs.length + 1) - (bs.length + 1)) 0 := by
  have hpad : bs.length + 1 ≤ Mem.align8 (bs.length + 1) := Mem.le_align8 _
  simp only [write_string, allocate, Mem.writeBytes, List.length_cons,
    List.length_nil, List.length_replicate]
  rw [List.take_left' rfl, List.drop_append, List.drop_replicate]
  rw [List.take_left' (by simp)]
  have e : st.mem.length + bs.length + (0 + 1) = (st.mem ++ bs).length + 1 := by
    simp
  rw [e, List.drop_append, List.drop_replicate]
  simp [List.append_assoc, Nat.sub_sub]

theorem takeWhile_ne_zero (bs t : List Nat) (h : 0 ∉ bs) :
    (bs ++ 0 :: t).takeWhile (fun b => b != 0) = bs := by
  induction bs with
  | nil => simp
  | cons a as ih =>
    simp only [List.mem_cons, not_or] at h
    simp only [List.cons_append, List.takeWhile_cons]
    rw [if_pos (by simp [bne_iff_ne]; omega)]
    rw [ih (by tauto)]

/-- C10: writing any NUL-free byte string with `write_string` and reading
it back from the returned offset with `read_string` yields the same
bytes, in any prior processor state: the writer stores the bytes followed
by a single 0 terminator, and the reader scans to the first zero byte. (A
Rust `String` is its UTF-8 bytes, which never contain 0x00 unless the
string contains NUL, and `String::from_utf8_lossy` is the identity on
them.) -/
theorem C10_write_read_string_roundtrip (st : TPState) (bs : List Nat)
    (hz : 0 ∉ bs) :
    read_string (write_string st bs).2.mem (write_string st bs).1 = some bs := by
  rw [write_string_ptr, write_string_mem]
  simp only [read_string]
  rw [List.append_assoc, List.drop_left' rfl]
  rw [takeWhile_ne_zero _ _ hz]
  rw [if_pos (by simp)]

/-- C10 witness: the round trip on the two-byte string "hi" in a fresh
processor. -/
theorem C10_witness :
    0 ∉ [104, 105] ∧
      read_string (write_string tp0 [104, 105]).2.mem
        (write_string tp0 [104, 105]).1 = some [104, 105] :=
  ⟨by decide, C10_write_read_string_roundtrip tp0 [104, 105] (by decide)⟩

end TextProcessor

namespace MLInference

open Mem

/-- State of an `MLInference` instance's arena. Only the buffer contents
are modelled: the source's capacity check and `Vec::reserve` change the
vector's reserved capacity but never its length or contents, and the
`model`/`config`/`metadata` fields play no role in the claims below. -/
structure MLState where
  mem : List Nat
deriving DecidableEq, Repr

/-- Fresh arena, `MLInference::new`. -/
def ml0 : MLState := ⟨[]⟩

/-- Embeds `MLInference::allocate`: rounds the size up to a multiple of 8
and resizes the buffer by that many zero bytes, returning the old length.
(The capacity-growth branch only calls `Vec::reserve`.) -/
def allocate (st : MLState) (size : Nat) : Nat × MLState :=
  let alignedSize := align8 size
  let ptr := st.mem.length
  (ptr, ⟨st.mem ++ List.replicate alignedSize 0⟩)

/-- Embeds `MLInference::deallocate`: zeroes the aligned region if it is
in bounds; memory is never reclaimed. -/
def deallocate (st : MLState) (ptr size : Nat) : MLState :=
  let alignedSize := align8 size
  if ptr + alignedSize ≤ st.mem.length then
    ⟨writeBytes st.mem ptr (List.replicate alignedSize 0)⟩
  else st

/-- Embeds `MLInference::cleanup` (the arena part: `memory.clear()`). -/
def cleanup (_ : MLState) : MLState := ⟨[]⟩

end MLInference

namespace TextProcessor

/-- Offsets returned by a sequence of `TextProcessor::allocate` calls. -/
def allocSeq (st : TPState) : List Nat → List Nat
  | [] => []
  | s :: ss => (allocate st s).1 :: allocSeq (allocate st s).2 ss

theorem tpAllocSeq_aligned (sizes : List Nat) :
    ∀ (st : TPState), st.mem.length % 8 = 0 →
      ∀ p ∈ allocSeq st sizes, p % 8 = 0 := by
  induction sizes with
  | nil => intro st h p hp; simp [allocSeq] at hp
  | cons s ss ih =>
    intro st h p hp
    have hlen : ((allocate st s).2).mem.length % 8 = 0 := by
      have := Mem.align8_mod s
      simp only [allocate, List.length_append, List.length_replicate]
      omega
    simp only [allocSeq, List.mem_cons] at hp
    rcases hp with hp | hp
    · simpa [allocate, hp] using h
    · exact ih _ hlen p hp

end TextProcessor

namespace MLInference

/-- Offsets returned by a sequence of `MLInference::allocate` calls. -/
def allocSeq (st : MLState) : List Nat → List Nat
  | [] => []
  | s :: ss => (allocate st s).1 :: allocSeq (allocate st s).2 ss

theorem mlAllocSeq_aligned (sizes : List Nat) :
    ∀ (st : MLState), st.mem.length % 8 = 0 →
      ∀ p ∈ allocSeq st sizes, p % 8 = 0 := by
  induction sizes with
  | nil => intro st h p hp; simp [allocSeq] at hp
  | cons s ss ih =>
    intro st h p hp
    have hlen : ((allocate st s).2).mem.length % 8 = 0 := by
      have := Mem.align8_mod s
      simp only [allocate, List.length_append, List.length_replicate]
      omega
    simp only [allocSeq, List.mem_cons] at hp
    rcases hp with hp | hp
    · simpa [allocate, hp] using h
    · exact ih _ hlen p hp

end MLInference

/-- C7: every offset returned by `allocate` is a multiple of 8, for every
requested size and after any prior sequence of allocate calls on a fresh
processor — both for the free-list allocator of `TextProcessor` and for
the allocate-only allocator of `MLInference`. (Both advance the buffer by
`(size + 7) & !7` bytes and return the previous length, which stays a
multiple of 8.) -/
theorem C7_allocate_offsets_are_multiples_of_8 (sizes : List Nat) (p : Nat) :
    (p ∈ TextProcessor.allocSeq TextProcessor.tp0 sizes → p % 8 = 0) ∧
    (p ∈ MLInference.allocSeq MLInference.ml0 sizes → p % 8 = 0) :=
  ⟨fun hp => TextProcessor.tpAllocSeq_aligned sizes TextProcessor.tp0 (by simp [TextProcessor.tp0]) p hp,
   fun hp => MLInference.mlAllocSeq_aligned sizes MLInference.ml0 (by simp [MLInference.ml0]) p hp⟩

/-- C7 witness: the second offset of the allocation sequence with sizes
3 then 5 is 8, and indeed 8 % 8 = 0 by the theorem. -/
theorem C7_witness :
    (8 ∈ TextProcessor.allocSeq TextProcessor.tp0 [3, 5]) ∧ (8 : Nat) % 8 = 0 :=
  ⟨by decide, (C7_allocate_offsets_are_multiples_of_8 [3, 5] 8).1 (by decide)⟩

/-- C8: for two consecutive calls `allocate(s1) = p1` then
`allocate(s2) = p2`, in any state, the byte ranges `[p1, p1+s1)` and
`[p2, p2+s2)` are disjoint — for both allocators. The second offset is the
buffer length after the first call, which is at least `p1 + s1` because
the first call appended at least `s1` bytes. -/
theorem C8_consecutive_allocations_do_not_overlap
    (st : TextProcessor.TPState) (ml : MLInference.MLState) (s1 s2 : Nat) :
    Disjoint
      (Finset.Ico (TextProcessor.allocate st s1).1
        ((TextProcessor.allocate st s1).1 + s1))
      (Finset.Ico
        (TextProcessor.allocate (TextProcessor.allocate st s1).2 s2).1
        ((TextProcessor.allocate (TextProcessor.allocate st s1).2 s2).1 + s2)) ∧
    Disjoint
      (Finset.Ico (MLInference.allocate ml s1).1
        ((MLInference.allocate ml s1).1 + s1))
      (Finset.Ico
        (MLInference.allocate (MLInference.allocate ml s1).2 s2).1
        ((MLInference.allocate (MLInference.allocate ml s1).2 s2).1 + s2)) := by
  constructor
  · rw [Finset.disjoint_left]
    intro x hx1 hx2
    rw [Finset.mem_Ico] at hx1 hx2
    have h1 := Mem.le_align8 s1
    simp only [TextProcessor.allocate, List.length_append,
      List.length_replicate] at hx1 hx2
    omega
  · rw [Finset.disjoint_left]
    intro x hx1 hx2
    rw [Finset.mem_Ico] at hx1 hx2
    have h1 := Mem.le_align8 s1
    simp only [MLInference.allocate, List.length_append,
      List.length_replicate] at hx1 hx2
    omega

namespace MLInference

open Mem

/-- Decoded tensor: the dimension list and the flat row-major payload of
32-bit float bit patterns (the `ArrayD<f32>` of the source, kept flat; the
`ArrayN::from_shape_vec` calls cannot fail because the payload is read
with exactly `shape.prod` elements). -/
structure TensorD where
  shape : List Nat
  data : List Nat
deriving DecidableEq, Repr

/-- Embeds `MLInference::read_tensor`: reads `shape_len` from
`shape_ptr`, then `shape_len` dimensions, then `shape.prod` 32-bit data
values from `ptr`, and accepts only ranks 1 through 4; every other rank is
the `Unsupported tensor dimension` error. -/
def read_tensor (mem : List Nat) (ptr shape_ptr : Nat) : Except String TensorD :=
  let shape_len := readI32 mem shape_ptr
  let shape := (List.range shape_len).map (fun i => readI32 mem (shape_ptr + 4 + 4 * i))
  let data_len := shape.prod
  let data := (List.range data_len).map (fun i => readI32 mem (ptr + 4 * i))
  match shape.length with
  | 1 => .ok ⟨shape, data⟩
  | 2 => .ok ⟨shape, data⟩
  | 3 => .ok ⟨shape, data⟩
  | 4 => .ok ⟨shape, data⟩
  | _ => .error ("Unsupported tensor dimension")

/-- C9: tensor decode succeeds only for ranks 1 through 4: whenever the
encoded rank (the int32 at `shape_ptr`) is 0 or greater than 4,
`read_tensor` returns the decode error rather than an array. -/
theorem C9_read_tensor_rejects_rank_0_and_above_4
    (mem : List Nat) (ptr shape_ptr : Nat)
    (h : readI32 mem shape_ptr = 0 ∨ 4 < readI32 mem shape_ptr) :
    read_tensor mem ptr shape_ptr = .error ("Unsupported tensor dimension") := by
  simp only [read_tensor, List.length_map, List.length_range]
  rcases h with h | h
  · rw [h]
  · obtain ⟨n, hn⟩ : ∃ n, readI32 mem shape_ptr = n + 5 :=
      ⟨readI32 mem shape_ptr - 5, by omega⟩
    rw [hn]
    rfl

/-- C9 witness: a memory whose encoded rank is 0 decodes to the error. -/
theorem C9_witness :
    (readI32 [0, 0, 0, 0] 0 = 0 ∨ 4 < readI32 [0, 0, 0, 0] 0) ∧
      read_tensor [0, 0, 0, 0] 0 0 = .error ("Unsupported tensor dimension") :=
  ⟨Or.inl (by decide),
   C9_read_tensor_rejects_rank_0_and_above_4 [0, 0, 0, 0] 0 0 (Or.inl (by decide))⟩

end MLInference

namespace MLInference

open Mem

/-- The `ModelConfig` record (source field types: usize, usize, bool,
String, u8, bool, u32). -/
structure ModelConfig where
  batch_size : Nat
  num_threads : Nat
  use_gpu : Bool
  precision : String
  optimization_level : Nat
  cache_results : Bool
  timeout : Nat
deriving DecidableEq, Repr

/-- Embeds `MLInference::read_config`: seven consecutive little-endian
32-bit loads at `ptr`, in the fixed field order; the precision enum maps
0, 1, 2 to fp32, fp16, int8 with fp32 as default, and the optimization
level is truncated to u8. -/
def read_config (mem : List Nat) (ptr : Nat) : ModelConfig :=
  { batch_size := readI32 mem ptr
    num_threads := readI32 mem (ptr + 4)
    use_gpu := readI32 mem (ptr + 8) != 0
    precision :=
      match readI32 mem (ptr + 12) with
      | 0 => "fp32"
      | 1 => "fp16"
      | 2 => "int8"
      | _ => "fp32"
    optimization_level := readI32 mem (ptr + 16) % 256
    cache_results := readI32 mem (ptr + 20) != 0
    timeout := readI32 mem (ptr + 24) }

/-- Embeds the test-only `MLInference::write_string`: allocate
`len + 1`, copy the bytes, append a 0 terminator. -/
def write_string (st : MLState) (bs : List Nat) : Nat × MLState :=
  let (ptr, st1) := allocate st (bs.length + 1)
  let m2 := writeBytes st1.mem ptr bs
  let m3 := writeBytes m2 (ptr + bs.length) [0]
  (ptr, ⟨m3⟩)

/-- The `serde_json::to_string` output for a `ModelConfig`: fields in
declaration order, no whitespace, numbers in decimal, booleans as
true/false, the precision string quoted (its values fp32/fp16/int8 need
no JSON escaping). -/
def configJsonStr (c : ModelConfig) : String :=
  "\x7b\"batch_size\":" ++ toString c.batch_size ++
    ",\"num_threads\":" ++ toString c.num_threads ++
    ",\"use_gpu\":" ++ (if c.use_gpu then "true" else "false") ++
    ",\"precision\":\"" ++ c.precision ++
    "\",\"optimization_level\":" ++ toString c.optimization_level ++
    ",\"cache_results\":" ++ (if c.cache_results then "true" else "false") ++
    ",\"timeout\":" ++ toString c.timeout ++ "\x7d"

/-- Embeds the test-only `MLInference::write_config`: serializes the
config to JSON text and writes it with `write_string`. -/
def write_config (st : MLState) (c : ModelConfig) : Nat × MLState :=
  write_string st (TextProcessor.utf8Bytes (configJsonStr c).toList)

/-- The configuration used by the repository's own `test_model_loading`
and `test_inference` tests. -/
def cfgUnit : ModelConfig := ⟨1, 2, false, "fp32", 2, true, 30000⟩

set_option maxRecDepth 4000

/-- C4: the claim says that for every valid config record,
`write_config` followed by `read_config` at the returned offset restores
all seven fields. In fact `write_config` stores the config as JSON text
while `read_config` decodes seven little-endian int32 fields, so decoding
reads the JSON character bytes as integers: on the unit tests' own config
the decoded batch size is the little-endian value of the four bytes
`{"ba` rather than 1, and the decoded record differs from the original. -/
theorem C4_write_config_read_config_mismatch :
    (read_config (write_config ml0 cfgUnit).2.mem
        (write_config ml0 cfgUnit).1).batch_size ≠ cfgUnit.batch_size ∧
    read_config (write_config ml0 cfgUnit).2.mem
        (write_config ml0 cfgUnit).1 ≠ cfgUnit := by
  refine ⟨by decide, by decide⟩

end MLInference

namespace DocumentProcessor

/-- Caller-supplied processing options (`ProcessingOptions`). -/
structure ProcessingOptions where
  extract_text : Bool
  extract_images : Bool
  perform_ocr : Bool
  language : Option String
  quality : Option String
deriving DecidableEq, Repr

/-- Result metadata (`DocumentMetadata`); timestamps are carried as the
strings `chrono::Utc::now().to_rfc3339()` produces. -/
structure DocumentMetadata where
  file_size : Nat
  page_count : Nat
  file_type : String
  created_at : String
  last_modified : String
deriving DecidableEq, Repr

/-- The boundary result record (`ProcessingResult`). -/
structure ProcessingResult where
  metadata : DocumentMetadata
  text : Option String
  images : Option (List (List Nat))
  error : Option String
deriving DecidableEq, Repr

/-- Outcome of a routed document handler (`PdfProcessor::process` etc.,
external collaborators at this boundary): a result, a
`Result::Err` value, or a runtime panic. -/
inductive HOutcome where
  | ok (r : ProcessingResult)
  | err (e : String)
  | panic
deriving DecidableEq, Repr

/-- Embeds `DocumentProcessor::detect_file_type`: magic-byte routing on
the leading bytes (`%PDF`, the zip local-file header, the JPEG SOI
marker). -/
def detect_file_type (data : List Nat) : String :=
  if [37, 80, 68, 70].isPrefixOf data then "pdf"
  else if [80, 75, 3, 4].isPrefixOf data then "docx"
  else if [255, 216, 255].isPrefixOf data then "image"
  else "unknown"

/-- The routing match of `process_document`: dispatches to the handler for
the detected type, or the `Unsupported file type` error. -/
def routeResult (data : List Nat) (options : ProcessingOptions)
    (handler : String → List Nat → ProcessingOptions → HOutcome) : HOutcome :=
  match detect_file_type data with
  | "pdf" => handler ("pdf") data options
  | "docx" => handler ("docx") data options
  | "image" => handler ("image") data options
  | _ => .err ("Unsupported file type")

/-- Body of the `catch_unwind` closure in `process_document`: `none` is a
panic escaping the closure (the options-parse `expect` or a handler
panic); otherwise the result value that gets serialized. `optionsParse`
stands for `serde_json::from_slice` on the options bytes, `now` for the
`chrono` timestamp. -/
def innerCompute (data : List Nat) (optionsParse : Option ProcessingOptions)
    (handler : String → List Nat → ProcessingOptions → HOutcome)
    (now : String) : Option ProcessingResult :=
  match optionsParse with
  | none => none
  | some options =>
    match routeResult data options handler with
    | .ok r => some r
    | .err e =>
      some
        { metadata :=
            { file_size := data.length, page_count := 0,
              file_type := "unknown", created_at := now, last_modified := now }
          text := none, images := none, error := some e }
    | .panic => none

/-- Embeds `DocumentProcessor::process_document` up to JSON serialization
(the returned `ProcessingResult` is what `serde_json::to_vec` encodes into
the arena): the closure result if no panic occurred, otherwise the
catch_unwind fallback error result. -/
def process_document (data : List Nat) (optionsParse : Option ProcessingOptions)
    (handler : String → List Nat → ProcessingOptions → HOutcome)
    (now : String) : ProcessingResult :=
  match innerCompute data optionsParse handler now with
  | some r => r
  | none =>
    { metadata :=
        { file_size := 0, page_count := 0, file_type := "unknown",
          created_at := now, last_modified := now }
      text := none, images := none, error := some ("Internal processing error") }

/-- Decidable test for the hypothesis of C6: the routed handler did not
produce an `Ok` result (it returned an error or panicked), or the options
failed to parse (which panics inside the closure). -/
def handlerSideFailed (data : List Nat) (optionsParse : Option ProcessingOptions)
    (handler : String → List Nat → ProcessingOptions → HOutcome) : Bool :=
  match optionsParse with
  | none => true
  | some options =>
    match routeResult data options handler with
    | .ok _ => false
    | .err _ => true
    | .panic => true

/-- C6: `process_document` always returns a `ProcessingResult` value (the
embedding is a total function: `catch_unwind` stops any panic at the
boundary), and whenever the routed handler fails or a runtime fault
occurs during processing, the returned result carries a populated `error`
field and zeroed/defaulted metadata: page count 0, file type "unknown",
no text, no images, and a file size that is either 0 (panic path) or the
raw input length (handler-error path). -/
theorem C6_process_document_catches_failures
    (data : List Nat) (optionsParse : Option ProcessingOptions)
    (handler : String → List Nat → ProcessingOptions → HOutcome) (now : String)
    (hfail : handlerSideFailed data optionsParse handler = true) :
    (process_document data optionsParse handler now).error.isSome = true ∧
    (process_document data optionsParse handler now).metadata.page_count = 0 ∧
    (process_document data optionsParse handler now).metadata.file_type = "unknown" ∧
    (process_document data optionsParse handler now).text = none ∧
    (process_document data optionsParse handler now).images = none ∧
    ((process_document data optionsParse handler now).metadata.file_size = 0 ∨
      (process_document data optionsParse handler now).metadata.file_size = data.length) := by
  cases hop : optionsParse with
  | none => simp [process_document, innerCompute]
  | some options =>
    cases hr : routeResult data options handler with
    | ok r =>
      rw [hop] at hfail
      simp only [handlerSideFailed, hr] at hfail
      exact Bool.noConfusion hfail
    | err e => simp [process_document, innerCompute, hr]
    | panic => simp [process_document, innerCompute, hr]

/-- C6 witness: input bytes with no known magic prefix route to the
`Unsupported file type` error, and the boundary result carries the error
with defaulted metadata. -/
theorem C6_witness :
    handlerSideFailed [1, 2, 3] (some ⟨true, true, false, none, none⟩)
        (fun _ _ _ => HOutcome.panic) = true ∧
      (process_document [1, 2, 3] (some ⟨true, true, false, none, none⟩)
          (fun _ _ _ => HOutcome.panic) ("t")).error.isSome = true :=
  ⟨by decide,
   (C6_process_document_catches_failures [1, 2, 3]
      (some ⟨true, true, false, none, none⟩)
      (fun _ _ _ => HOutcome.panic) ("t") (by decide)).1⟩

end DocumentProcessor

namespace TextProcessor

open Mem

/-- Embeds `TextProcessor::write_metadata`: allocates a 16-byte block and
stores the language pointer (0 for `None`; for `Some` the language string
is written first, as the source's match arm calls `write_string`) and the
`f64` confidence bit pattern as two little-endian u64 values. -/
def write_metadata (st : TPState) (md : ChunkMetadata) : Nat × TPState :=
  let (ptr, st1) := allocate st 16
  let (lp, st2) :=
    match md.language with
    | none => (0, st1)
    | some lang => write_string st1 (utf8Bytes lang)
  (ptr, ⟨writeU64 (writeU64 st2.mem ptr lp) (ptr + 8) md.confidenceBits, st2.allocated⟩)

/-- Embeds the `chunks_data` map of `write_chunks`: for each chunk, in
order, write its text and its metadata and collect the record
`(text_ptr, start, end, metadata_ptr)`. -/
def collectChunkData (st : TPState) : List TextChunk → List (Nat × Nat × Nat × Nat) × TPState
  | [] => ([], st)
  | c :: cs =>
    let (tp, st1) := write_string st (utf8Bytes c.text)
    let (mp, st2) := write_metadata st1 c.metadata
    let (rest, st3) := collectChunkData st2 cs
    ((tp, c.start, c.endPos, mp) :: rest, st3)

/-- One 24-byte record store of `write_chunk_data`: the four int32 fields
at the record's first 16 bytes (slots 4 and 5 of the 6-int32 slice are
never assigned). -/
def writeRec (m : List Nat) (off : Nat) (r : Nat × Nat × Nat × Nat) : List Nat :=
  writeI32 (writeI32 (writeI32 (writeI32 m off r.1) (off + 4) r.2.1)
    (off + 8) r.2.2.1) (off + 12) r.2.2.2

/-- The record-writing loop of `write_chunk_data`: record `i` is stored at
`off + 24 * i`. -/
def writeRecsFrom (m : List Nat) (off : Nat) : List (Nat × Nat × Nat × Nat) → List Nat
  | [] => m
  | r :: rs => writeRecsFrom (writeRec m off r) (off + 24) rs

/-- Embeds `TextProcessor::write_chunk_data`: allocates
`24 * record count` bytes and stores the records. -/
def write_chunk_data (st : TPState) (recs : List (Nat × Nat × Nat × Nat)) :
    Nat × TPState :=
  let (ptr, st1) := allocate st (recs.length * 24)
  (ptr, ⟨writeRecsFrom st1.mem ptr recs, st1.allocated⟩)

/-- Embeds `TextProcessor::write_chunks`: allocates the 12-byte result
header, writes every chunk's text and metadata while collecting the
records, writes the record array, and finally stores
`(count, 0, chunks_ptr)` into the header (the middle int32 is the
not-yet-implemented global metadata pointer). -/
def write_chunks (st : TPState) (chunks : List TextChunk) : Nat × TPState :=
  let (result_ptr, st1) := allocate st 12
  let (recs, st2) := collectChunkData st1 chunks
  let (chunks_ptr, st3) := write_chunk_data st2 recs
  let m := writeI32 (writeI32 (writeI32 st3.mem result_ptr chunks.length)
    (result_ptr + 4) 0) (result_ptr + 8) chunks_ptr
  (result_ptr, ⟨m, st3.allocated⟩)

theorem length_writeU64 {m : List Nat} {p v : Nat} (h : p + 8 ≤ m.length) :
    (writeU64 m p v).length = m.length :=
  length_writeBytes (by simpa [le64] using h)

theorem write_string_mem_length (st : TPState) (bs : List Nat) :
    (write_string st bs).2.mem.length =
      st.mem.length + Mem.align8 (bs.length + 1) := by
  have hpad : bs.length + 1 ≤ Mem.align8 (bs.length + 1) := Mem.le_align8 _
  rw [write_string_mem]
  simp
  omega

theorem write_metadata_mem_le (st : TPState) (md : ChunkMetadata) :
    st.mem.length + 16 ≤ (write_metadata st md).2.mem.length := by
  have h16 : Mem.align8 16 = 16 := by norm_num [Mem.align8]
  cases hl : md.language with
  | none =>
    simp only [write_metadata, hl, allocate]
    set A := st.mem ++ List.replicate (Mem.align8 16) 0 with hA
    have hlenA : A.length = st.mem.length + 16 := by simp [hA, h16]
    have hb1 : st.mem.length + 8 ≤ A.length := by omega
    have hlen1 : (writeU64 A st.mem.length 0).length = A.length := length_writeU64 hb1
    have hb2 : st.mem.length + 8 + 8 ≤ (writeU64 A st.mem.length 0).length := by omega
    rw [length_writeU64 hb2, hlen1, hlenA]
  | some lang =>
    simp only [write_metadata, hl, allocate]
    set A := st.mem ++ List.replicate (Mem.align8 16) 0 with hA
    have hlenA : A.length = st.mem.length + 16 := by simp [hA, h16]
    set stA : TPState := ⟨A, st.allocated ++ [(st.mem.length, Mem.align8 16)]⟩ with hstA
    have hws : (write_string stA (utf8Bytes lang)).2.mem.length =
        A.length + Mem.align8 ((utf8Bytes lang).length + 1) :=
      write_string_mem_length stA _
    have hb1 : st.mem.length + 8 ≤
        (write_string stA (utf8Bytes lang)).2.mem.length := by
      rw [hws]; omega
    have hlen1 : (writeU64 (write_string stA (utf8Bytes lang)).2.mem st.mem.length
        ((write_string stA (utf8Bytes lang)).1)).length =
        (write_string stA (utf8Bytes lang)).2.mem.length := length_writeU64 hb1
    have hb2 : st.mem.length + 8 + 8 ≤ (writeU64
        (write_string stA (utf8Bytes lang)).2.mem st.mem.length
        ((write_string stA (utf8Bytes lang)).1)).length := by
      rw [hlen1, hws]; omega
    rw [length_writeU64 hb2, hlen1, hws, hlenA]
    omega

theorem collect_mem_le (chunks : List TextChunk) :
    ∀ st : TPState, st.mem.length ≤ (collectChunkData st chunks).2.mem.length := by
  induction chunks with
  | nil => intro st; simp [collectChunkData]
  | cons c cs ih =>
    intro st
    simp only [collectChunkData]
    have h1 : st.mem.length ≤ (write_string st (utf8Bytes c.text)).2.mem.length := by
      rw [write_string_mem_length]; omega
    have h2 := write_metadata_mem_le (write_string st (utf8Bytes c.text)).2 c.metadata
    have h3 := ih (write_metadata (write_string st (utf8Bytes c.text)).2 c.metadata).2
    omega

theorem collect_length (chunks : List TextChunk) :
    ∀ st : TPState, (collectChunkData st chunks).1.length = chunks.length := by
  induction chunks with
  | nil => intro st; simp [collectChunkData]
  | cons c cs ih => intro st; simp [collectChunkData, ih]

end TextProcessor

namespace TextProcessor

open Mem

theorem length_writeRec {m : List Nat} {off : Nat} (r : Nat × Nat × Nat × Nat)
    (h : off + 16 ≤ m.length) : (writeRec m off r).length = m.length := by
  have hb0 : off + 4 ≤ m.length := by omega
  have l0 : (writeI32 m off r.1).length = m.length := length_writeI32 hb0
  have hb1 : (off + 4) + 4 ≤ (writeI32 m off r.1).length := by omega
  have l1 : (writeI32 (writeI32 m off r.1) (off + 4) r.2.1).length =
      (writeI32 m off r.1).length := length_writeI32 hb1
  have hb2 : (off + 8) + 4 ≤
      (writeI32 (writeI32 m off r.1) (off + 4) r.2.1).length := by omega
  have l2 : (writeI32 (writeI32 (writeI32 m off r.1) (off + 4) r.2.1)
      (off + 8) r.2.2.1).length =
      (writeI32 (writeI32 m off r.1) (off + 4) r.2.1).length := length_writeI32 hb2
  have hb3 : (off + 12) + 4 ≤ (writeI32 (writeI32 (writeI32 m off r.1)
      (off + 4) r.2.1) (off + 8) r.2.2.1).length := by omega
  simp only [writeRec]
  rw [length_writeI32 hb3, l2, l1, l0]

theorem readI32_writeRec_left {m : List Nat} {off q : Nat}
    (r : Nat × Nat × Nat × Nat) (h : off + 16 ≤ m.length) (hq : q + 4 ≤ off) :
    readI32 (writeRec m off r) q = readI32 m q := by
  have hb0 : off + 4 ≤ m.length := by omega
  have l0 : (writeI32 m off r.1).length = m.length := length_writeI32 hb0
  have hb1 : (off + 4) + 4 ≤ (writeI32 m off r.1).length := by omega
  have l1 : (writeI32 (writeI32 m off r.1) (off + 4) r.2.1).length =
      (writeI32 m off r.1).length := length_writeI32 hb1
  have hb2 : (off + 8) + 4 ≤
      (writeI32 (writeI32 m off r.1) (off + 4) r.2.1).length := by omega
  have l2 : (writeI32 (writeI32 (writeI32 m off r.1) (off + 4) r.2.1)
      (off + 8) r.2.2.1).length =
      (writeI32 (writeI32 m off r.1) (off + 4) r.2.1).length := length_writeI32 hb2
  have hb3 : (off + 12) + 4 ≤ (writeI32 (writeI32 (writeI32 m off r.1)
      (off + 4) r.2.1) (off + 8) r.2.2.1).length := by omega
  simp only [writeRec]
  rw [readI32_writeI32_left hb3 (by omega), readI32_writeI32_left hb2 (by omega),
      readI32_writeI32_left hb1 (by omega), readI32_writeI32_left hb0 (by omega)]

theorem readI32_writeRec_fields {m : List Nat} {off : Nat}
    (r : Nat × Nat × Nat × Nat) (h : off + 16 ≤ m.length) :
    readI32 (writeRec m off r) off = r.1 % 4294967296 ∧
    readI32 (writeRec m off r) (off + 4) = r.2.1 % 4294967296 ∧
    readI32 (writeRec m off r) (off + 8) = r.2.2.1 % 4294967296 ∧
    readI32 (writeRec m off r) (off + 12) = r.2.2.2 % 4294967296 := by
  have hb0 : off + 4 ≤ m.length := by omega
  have l0 : (writeI32 m off r.1).length = m.length := length_writeI32 hb0
  have hb1 : (off + 4) + 4 ≤ (writeI32 m off r.1).length := by omega
  have l1 : (writeI32 (writeI32 m off r.1) (off + 4) r.2.1).length =
      (writeI32 m off r.1).length := length_writeI32 hb1
  have hb2 : (off + 8) + 4 ≤
      (writeI32 (writeI32 m off r.1) (off + 4) r.2.1).length := by omega
  have l2 : (writeI32 (writeI32 (writeI32 m off r.1) (off + 4) r.2.1)
      (off + 8) r.2.2.1).length =
      (writeI32 (writeI32 m off r.1) (off + 4) r.2.1).length := length_writeI32 hb2
  have hb3 : (off + 12) + 4 ≤ (writeI32 (writeI32 (writeI32 m off r.1)
      (off + 4) r.2.1) (off + 8) r.2.2.1).length := by omega
  refine ⟨?_, ?_, ?_, ?_⟩
  · simp only [writeRec]
    rw [readI32_writeI32_left hb3 (by omega), readI32_writeI32_left hb2 (by omega),
        readI32_writeI32_left hb1 (by omega)]
    exact readI32_writeI32_self hb0
  · simp only [writeRec]
    rw [readI32_writeI32_left hb3 (by omega), readI32_writeI32_left hb2 (by omega)]
    exact readI32_writeI32_self hb1
  · simp only [writeRec]
    rw [readI32_writeI32_left hb3 (by omega)]
    exact readI32_writeI32_self hb2
  · simp only [writeRec]
    exact readI32_writeI32_self hb3

theorem length_writeRecsFrom (recs : List (Nat × Nat × Nat × Nat)) :
    ∀ (m : List Nat) (off : Nat), off + 24 * recs.length ≤ m.length →
      (writeRecsFrom m off recs).length = m.length := by
  induction recs with
  | nil => intro m off h; rfl
  | cons r rs ih =>
    intro m off h
    have hlen : (r :: rs).length = rs.length + 1 := rfl
    rw [hlen] at h
    have h16 : off + 16 ≤ m.length := by omega
    have lw := length_writeRec r h16
    have h2 : (off + 24) + 24 * rs.length ≤ (writeRec m off r).length := by
      rw [lw]; omega
    simp only [writeRecsFrom]
    rw [ih _ _ h2, lw]

theorem readI32_writeRecsFrom_lo (recs : List (Nat × Nat × Nat × Nat)) :
    ∀ (m : List Nat) (off q : Nat), off + 24 * recs.length ≤ m.length →
      q + 4 ≤ off → readI32 (writeRecsFrom m off recs) q = readI32 m q := by
  induction recs with
  | nil => intro m off q h hq; rfl
  | cons r rs ih =>
    intro m off q h hq
    have hlen : (r :: rs).length = rs.length + 1 := rfl
    rw [hlen] at h
    have h16 : off + 16 ≤ m.length := by omega
    have lw := length_writeRec r h16
    have h2 : (off + 24) + 24 * rs.length ≤ (writeRec m off r).length := by
      rw [lw]; omega
    simp only [writeRecsFrom]
    rw [ih _ _ _ h2 (by omega), readI32_writeRec_left r h16 hq]

/-- Record `i` of the array written by `writeRecsFrom` holds its four
int32 fields at bytes 0, 4, 8 and 12 of its 24-byte slot; later records
never overwrite earlier ones. -/
theorem writeRecsFrom_fields (recs : List (Nat × Nat × Nat × Nat)) :
    ∀ (m : List Nat) (off : Nat), off + 24 * recs.length ≤ m.length →
      ∀ i, i < recs.length →
        readI32 (writeRecsFrom m off recs) (off + 24 * i) =
          (recs.getD i (0, 0, 0, 0)).1 % 4294967296 ∧
        readI32 (writeRecsFrom m off recs) (off + 24 * i + 4) =
          (recs.getD i (0, 0, 0, 0)).2.1 % 4294967296 ∧
        readI32 (writeRecsFrom m off recs) (off + 24 * i + 8) =
          (recs.getD i (0, 0, 0, 0)).2.2.1 % 4294967296 ∧
        readI32 (writeRecsFrom m off recs) (off + 24 * i + 12) =
          (recs.getD i (0, 0, 0, 0)).2.2.2 % 4294967296 := by
  induction recs with
  | nil => intro m off h i hi; exact absurd hi (by simp)
  | cons r rs ih =>
    intro m off h i hi
    have hlen : (r :: rs).length = rs.length + 1 := rfl
    rw [hlen] at h
    have h16 : off + 16 ≤ m.length := by omega
    have lw := length_writeRec r h16
    have h2 : (off + 24) + 24 * rs.length ≤ (writeRec m off r).length := by
      rw [lw]; omega
    simp only [writeRecsFrom]
    cases i with
    | zero =>
      simp only [List.getD_cons_zero, Nat.mul_zero, Nat.add_zero]
      have hf := readI32_writeRec_fields r h16
      refine ⟨?_, ?_, ?_, ?_⟩
      · rw [readI32_writeRecsFrom_lo rs _ _ _ h2 (by omega)]; exact hf.1
      · rw [readI32_writeRecsFrom_lo rs _ _ _ h2 (by omega)]; exact hf.2.1
      · rw [readI32_writeRecsFrom_lo rs _ _ _ h2 (by omega)]; exact hf.2.2.1
      · rw [readI32_writeRecsFrom_lo rs _ _ _ h2 (by omega)]; exact hf.2.2.2
    | succ j =>
      simp only [List.getD_cons_succ]
      have hj : j < rs.length := by rw [hlen] at hi; omega
      have hrec := ih (writeRec m off r) (off + 24) h2 j hj
      have e0 : off + 24 * (j + 1) = off + 24 + 24 * j := by ring
      rw [e0]
      exact hrec

/-- The records collected by `write_chunks` for a chunk list, in order:
`(text_ptr, start, end, metadata_ptr)` per chunk. -/
def chunkRecords (st : TPState) (chunks : List TextChunk) :
    List (Nat × Nat × Nat × Nat) :=
  (collectChunkData (allocate st 12).2 chunks).1

/-- The offset at which `write_chunks` stores the record array (the
`chunks_ptr` of the source): the buffer length after the header block and
all text/metadata blocks have been written. -/
def chunkRecordsPtr (st : TPState) (chunks : List TextChunk) : Nat :=
  (collectChunkData (allocate st 12).2 chunks).2.mem.length

/-- The default chunk used only as the `getD` fallback in the claim
formalization below. -/
def defaultChunk : TextChunk := ⟨[], 0, 0, ⟨none, 0⟩⟩

/-- Formalization of claim C5 as stated, at a given input: encoding a
chunk list writes an int32 count at the returned offset, immediately
followed, contiguously, by count fixed 24-byte records whose first 16
bytes hold `(text_offset, start, end, metadata_offset)` — the text offset
locating the chunk's encoded text, the start and end fields the chunk
span, and the metadata offset locating the 16-byte metadata block (zero
language offset for `None`, confidence bit pattern). -/
def c5ContiguousLayoutHolds (st : TPState) (chunks : List TextChunk) : Bool :=
  let r := write_chunks st chunks
  let m := r.2.mem
  (readI32 m r.1 == chunks.length % 4294967296) &&
  (List.range chunks.length).all (fun i =>
    let off := r.1 + 4 + 24 * i
    let c := chunks.getD i defaultChunk
    (read_string m (readI32 m off) == some (utf8Bytes c.text)) &&
    (readI32 m (off + 4) == c.start % 4294967296) &&
    (readI32 m (off + 8) == c.endPos % 4294967296) &&
    (match c.metadata.language with
      | none => readU64 m (readI32 m (off + 12)) == 0
      | some _ => true) &&
    (readU64 m (readI32 m (off + 12) + 8) == c.metadata.confidenceBits))

/-- The one-chunk input of the C5 counterexample: the chunk "a" spanning
`[0, 1)` with the chunker's fixed metadata. -/
def cA : TextChunk := ⟨['a'], 0, 1, ⟨none, float64OneBits⟩⟩

/-- C5 counterexample: on a fresh processor and the single chunk `cA`,
the claimed layout `count:int32 | count x 24-byte record` does not hold:
the count (1) is indeed at the result offset, but the bytes immediately
after it are the header's global-metadata int32 (always 0) and the
`chunks_ptr` int32, not the first record — the record array lives at
`chunks_ptr`, behind one indirection. -/
theorem C5_counterexample_contiguous_layout_fails :
    c5ContiguousLayoutHolds tp0 [cA] = false := by decide

/-- C5 (amended): `write_chunks` writes a 12-byte header at the returned
offset holding `(count:int32, 0:int32, chunks_ptr:int32)`, and at
`chunks_ptr` (the buffer length after header, texts and metadata were
written) the `count` contiguous 24-byte records, record `i` holding
`(text_offset, start, end, metadata_offset)` of chunk `i` as little-endian
int32 values in its first 16 bytes. -/
theorem C5_write_chunks_header_and_record_layout
    (st : TPState) (chunks : List TextChunk) :
    (write_chunks st chunks).1 = st.mem.length ∧
    readI32 (write_chunks st chunks).2.mem st.mem.length =
      chunks.length % 4294967296 ∧
    readI32 (write_chunks st chunks).2.mem (st.mem.length + 4) = 0 ∧
    readI32 (write_chunks st chunks).2.mem (st.mem.length + 8) =
      chunkRecordsPtr st chunks % 4294967296 ∧
    ∀ i, i < chunks.length →
      readI32 (write_chunks st chunks).2.mem (chunkRecordsPtr st chunks + 24 * i) =
        ((chunkRecords st chunks).getD i (0, 0, 0, 0)).1 % 4294967296 ∧
      readI32 (write_chunks st chunks).2.mem
          (chunkRecordsPtr st chunks + 24 * i + 4) =
        ((chunkRecords st chunks).getD i (0, 0, 0, 0)).2.1 % 4294967296 ∧
      readI32 (write_chunks st chunks).2.mem
          (chunkRecordsPtr st chunks + 24 * i + 8) =
        ((chunkRecords st chunks).getD i (0, 0, 0, 0)).2.2.1 % 4294967296 ∧
      readI32 (write_chunks st chunks).2.mem
          (chunkRecordsPtr st chunks + 24 * i + 12) =
        ((chunkRecords st chunks).getD i (0, 0, 0, 0)).2.2.2 % 4294967296 := by
  have h12 : Mem.align8 12 = 16 := by norm_num [Mem.align8]
  set L := st.mem.length with hL
  set st1 := (allocate st 12).2 with hst1
  set recs := (collectChunkData st1 chunks).1 with hrecs
  set st2 := (collectChunkData st1 chunks).2 with hst2
  set cp := st2.mem.length with hcp
  set pad := Mem.align8 (recs.length * 24) with hpd
  set m2 := st2.mem ++ List.replicate pad 0 with hm2
  set m3 := writeRecsFrom m2 cp recs with hm3
  set mf := writeI32 (writeI32 (writeI32 m3 L chunks.length) (L + 4) 0) (L + 8) cp
    with hmf
  have hfst : (write_chunks st chunks).1 = L := rfl
  have hmem : (write_chunks st chunks).2.mem = mf := rfl
  have hcrp : chunkRecordsPtr st chunks = cp := rfl
  have hcr : chunkRecords st chunks = recs := rfl
  rw [hcrp, hcr]
  have hlen1 : st1.mem.length = L + 16 := by
    rw [hst1]; simp [allocate, h12]
  have hle : st1.mem.length ≤ cp := collect_mem_le chunks st1
  have hreclen : recs.length = chunks.length := collect_length chunks st1
  have hpadge : recs.length * 24 ≤ pad := Mem.le_align8 _
  have hlen2 : m2.length = cp + pad := by rw [hm2]; simp
  have hbound : cp + 24 * recs.length ≤ m2.length := by omega
  have hlen3 : m3.length = m2.length := length_writeRecsFrom recs m2 cp hbound
  have hbA : L + 4 ≤ m3.length := by omega
  have lA : (writeI32 m3 L chunks.length).length = m3.length := length_writeI32 hbA
  have hbB : (L + 4) + 4 ≤ (writeI32 m3 L chunks.length).length := by omega
  have lB : (writeI32 (writeI32 m3 L chunks.length) (L + 4) 0).length =
      (writeI32 m3 L chunks.length).length := length_writeI32 hbB
  have hbC : (L + 8) + 4 ≤
      (writeI32 (writeI32 m3 L chunks.length) (L + 4) 0).length := by omega
  refine ⟨hfst, ?_, ?_, ?_, ?_⟩
  · rw [hmem, hmf, readI32_writeI32_left hbC (by omega),
      readI32_writeI32_left hbB (by omega), readI32_writeI32_self hbA]
  · rw [hmem, hmf, readI32_writeI32_left hbC (by omega),
      readI32_writeI32_self hbB]
  · rw [hmem, hmf, readI32_writeI32_self hbC]
  · intro i hi
    have hi' : i < recs.length := by omega
    have hflds := writeRecsFrom_fields recs m2 cp hbound i hi'
    refine ⟨?_, ?_, ?_, ?_⟩
    · rw [hmem, hmf, readI32_writeI32_right hbC (by omega),
        readI32_writeI32_right hbB (by omega), readI32_writeI32_right hbA (by omega)]
      exact hflds.1
    · rw [hmem, hmf, readI32_writeI32_right hbC (by omega),
        readI32_writeI32_right hbB (by omega), readI32_writeI32_right hbA (by omega)]
      exact hflds.2.1
    · rw [hmem, hmf, readI32_writeI32_right hbC (by omega),
        readI32_writeI32_right hbB (by omega), readI32_writeI32_right hbA (by omega)]
      exact hflds.2.2.1
    · rw [hmem, hmf, readI32_writeI32_right hbC (by omega),
        readI32_writeI32_right hbB (by omega), readI32_writeI32_right hbA (by omega)]
      exact hflds.2.2.2

/-- C5 witness for the amended layout: on the one-chunk input `cA` the
record array sits at `chunkRecordsPtr` and its first field is the text
offset 16. -/
theorem C5_witness :
    (0 : Nat) < 1 ∧
      readI32 (write_chunks tp0 [cA]).2.mem (chunkRecordsPtr tp0 [cA] + 24 * 0) = 16 :=
  ⟨by decide,
   ((C5_write_chunks_header_and_record_layout tp0 [cA]).2.2.2.2 0
      (by decide)).1.trans (by decide)⟩

end TextProcessor
